import Mathlib

/-!
# Verification of the type-challenges maintenance scripts

Shallow embedding of the corpus-maintenance scripts of the repository:

* `scripts/generate.ts` (the playground generator): file hashing, directory
  snapshots, the playground cache, the overridable-file calculation and the
  per-file writability rule used by `--keep-changes` regeneration;
* `scripts/loader.ts`: quiz loading (folder-name parsing) and the
  locale-fallback metadata resolution `resolveInfo`;
* `scripts/readme.ts`: the marker-delimited README region substitution
  performed by `insertInfoReadme`, and the difficulty ranking used by
  `updateIndexREADME`.

JavaScript objects used as string-keyed dictionaries are embedded as
association lists in property insertion order (`Snapshot`), with JS property
lookup (`sget`, first match), property assignment (`sset`, in-place update
or append) and object spread (`smerge`).  JS string truthiness (the empty
string is the only falsy string) is `truthyS`.  External collaborators
(SHA-1, `JSON.parse`, the filesystem) are parameters or explicit inputs of
the embedded functions.
-/

namespace TypeChallenges

/-! ## JS object model: `type Snapshot = Record<string, string>` -/

/-- A JS object used as a string dictionary, in property insertion order.
JS objects cannot hold duplicate keys; that invariant is `keysNodup`. -/
abbrev Snapshot := List (String × String)

/-- Property lookup `obj[k]` (first matching key): `none` models the JS
value `undefined`. -/
def sget : Snapshot → String → Option String
  | [], _ => none
  | p :: t, k => if p.1 == k then some p.2 else sget t k

/-- Property assignment `obj[k] = v`: replaces the value in place when the
key is present, otherwise appends the new property (JS insertion order). -/
def sset (s : Snapshot) (k v : String) : Snapshot :=
  if (sget s k).isSome then
    s.map (fun p => if p.1 == k then (k, v) else p)
  else
    s ++ [(k, v)]

/-- Object spread `{...a, ...b}`: every property of `b` is assigned over `a`,
later properties overwriting earlier ones under the same key. -/
def smerge (a b : Snapshot) : Snapshot :=
  b.foldl (fun acc p => sset acc p.1 p.2) a

/-- The keys of a dictionary are pairwise distinct (JS object invariant). -/
abbrev keysNodup (s : Snapshot) : Prop := (s.map Prod.fst).Nodup

/-- JS truthiness of a possibly-`undefined` string: `undefined` and the empty
string are falsy, every other string is truthy. -/
def truthyS : Option String → Bool
  | none => false
  | some s => !(s == "")

theorem sget_nil (k : String) : sget [] k = none := rfl

theorem sget_cons (p : String × String) (t : Snapshot) (k : String) :
    sget (p :: t) k = if p.1 == k then some p.2 else sget t k := rfl

theorem sget_append (s t : Snapshot) (k : String) :
    sget (s ++ t) k = (sget s k).or (sget t k) := by
  induction s with
  | nil => rfl
  | cons p s ih =>
    rw [List.cons_append, sget_cons, sget_cons]
    by_cases h : (p.1 == k) = true
    · rw [if_pos h, if_pos h]; rfl
    · rw [if_neg h, if_neg h, ih]

theorem sget_map_assign_of_ne {s : Snapshot} {k k' v : String} (h : k' ≠ k) :
    sget (s.map (fun p => if p.1 == k then (k, v) else p)) k' = sget s k' := by
  induction s with
  | nil => rfl
  | cons q t ih =>
    rw [List.map_cons, sget_cons, sget_cons]
    by_cases hq : (q.1 == k) = true
    · rw [if_pos hq]
      have hkk' : ¬ ((((k, v) : String × String)).1 == k') = true := by
        simpa using fun hh => h hh.symm
      have hqk' : ¬ (q.1 == k') = true := by
        rw [beq_iff_eq] at hq
        rw [hq]
        simpa using fun hh => h hh.symm
      rw [if_neg hkk', if_neg hqk', ih]
    · rw [if_neg hq]
      by_cases hq' : (q.1 == k') = true
      · rw [if_pos hq', if_pos hq']
      · rw [if_neg hq', if_neg hq', ih]

theorem sget_map_assign_of_found {s : Snapshot} {k v : String}
    (h : (sget s k).isSome) :
    sget (s.map (fun p => if p.1 == k then (k, v) else p)) k = some v := by
  induction s with
  | nil => simp [sget] at h
  | cons q t ih =>
    rw [List.map_cons, sget_cons]
    by_cases hq : (q.1 == k) = true
    · rw [if_pos hq]
      have : ((((k, v) : String × String)).1 == k) = true := by simp
      rw [if_pos this]
    · rw [if_neg hq]
      have : ¬ ((q : String × String).1 == k) = true := hq
      rw [if_neg this]
      apply ih
      rwa [sget_cons, if_neg hq] at h

/-- JS property assignment followed by lookup. -/
theorem sget_sset (s : Snapshot) (k k' v : String) :
    sget (sset s k v) k' = if k' = k then some v else sget s k' := by
  unfold sset
  by_cases hfound : (sget s k).isSome
  · rw [if_pos hfound]
    by_cases hk : k' = k
    · subst hk
      rw [if_pos rfl]
      exact sget_map_assign_of_found hfound
    · rw [if_neg hk]
      exact sget_map_assign_of_ne hk
  · rw [if_neg hfound, sget_append]
    by_cases hk : k' = k
    · subst hk
      rw [if_pos rfl, Option.not_isSome_iff_eq_none.mp hfound]
      show sget [(k', v)] k' = some v
      rw [sget_cons]
      have : ((((k', v) : String × String)).1 == k') = true := by simp
      rw [if_pos this]
    · rw [if_neg hk]
      have h1 : sget ([(k, v)] : Snapshot) k' = none := by
        rw [sget_cons]
        have : ¬ ((((k, v) : String × String)).1 == k') = true := by
          simpa using fun hh => hk hh.symm
        rw [if_neg this]
        rfl
      rw [h1]
      cases sget s k' <;> rfl

/-- A present lookup comes from a member entry with that key. -/
theorem mem_of_sget_eq_some {s : Snapshot} {k v : String}
    (h : sget s k = some v) : (k, v) ∈ s := by
  induction s with
  | nil => simp [sget] at h
  | cons q t ih =>
    rw [sget_cons] at h
    by_cases hq : (q.1 == k) = true
    · rw [if_pos hq] at h
      have h1 : q.1 = k := beq_iff_eq.mp hq
      have h2 : q.2 = v := by simpa using h
      have : q = (k, v) := by
        rw [← h1, ← h2]
      rw [← this]
      exact List.mem_cons_self q t
    · rw [if_neg hq] at h
      exact List.mem_cons_of_mem q (ih h)

/-- Under the JS unique-key invariant, every entry is returned by lookup. -/
theorem sget_of_mem {s : Snapshot} (hnd : keysNodup s) {k v : String}
    (h : (k, v) ∈ s) : sget s k = some v := by
  induction s with
  | nil => simp at h
  | cons q t ih =>
    unfold keysNodup at hnd
    rw [List.map_cons, List.nodup_cons] at hnd
    rw [sget_cons]
    by_cases hq : (q.1 == k) = true
    · rw [if_pos hq]
      rcases List.mem_cons.mp h with h1 | h1
      · rw [← h1]
      · exact absurd (by
          simpa [beq_iff_eq.mp hq] using List.mem_map_of_mem Prod.fst h1) hnd.1
    · rw [if_neg hq]
      rcases List.mem_cons.mp h with h1 | h1
      · exact absurd (by simpa using (congrArg Prod.fst h1).symm) hq
      · exact ih hnd.2 h1

/-! ## `generate.ts`: file hashing (`calculateFileHash`)

`calculateFileHash` streams the file content into a SHA-1 context and, on
end-of-stream, additionally updates the context with the path it was given
(`hash.update(filePathFull)`) before taking the digest.  An incremental hash
of several chunks equals the hash of their concatenation, so the digest is
`digest (content ++ filePathFull)` where the SHA-1 primitive `digest` is an
external collaborator kept abstract. -/

/-- `calculateFileHash` from `generate.ts`, parametrised by the external
SHA-1 digest primitive: the hash context receives the file content followed
by the file path, so the digest input is their concatenation. -/
def calculateFileHash (digest : String → String)
    (content : String) (filePathFull : String) : String :=
  digest (content ++ filePathFull)

/-! ## `generate.ts`: playground cache loading (`readPlaygroundCache`) -/

/-- Outcome of `readPlaygroundCache`: either a snapshot, or the process
aborting via `process.exit(code)`. -/
inductive CacheLoadResult where
  | ok (s : Snapshot)
  | fatalExit (code : Nat)
deriving DecidableEq

/-- `readPlaygroundCache` from `generate.ts`.  The cache file is `none` when
it does not exist (`fs.existsSync` is false), otherwise `some` its raw
content.  `parseJson` is the external `JSON.parse` collaborator; `none`
models a parse exception, which the `catch` block turns into
`process.exit(1)`. -/
def readPlaygroundCache (cacheFile : Option String)
    (parseJson : String → Option Snapshot) : CacheLoadResult :=
  match cacheFile with
  | none => .ok []
  | some content =>
    match parseJson content with
    | some s => .ok s
    | none => .fatalExit 1

/-! ## `generate.ts`: overridable files and writability -/

/-- `calculateOverridableFiles` from `generate.ts`: for each property
`quizName` of `snapshot`, keep it iff
`snapshot[quizName] === cache[quizName]`. -/
def calculateOverridableFiles (cache snapshot : Snapshot) : Snapshot :=
  snapshot.foldl
    (fun result p =>
      if sget snapshot p.1 = sget cache p.1 then sset result p.1 p.2 else result)
    []

/-- `isQuizWritable` from `generate.ts`:
`!!(overridableFiles[q] || (!overridableFiles[q] && !playgroundSnapshot[q]))`. -/
def isQuizWritable (quizFileName : String)
    (overridableFiles playgroundSnapshot : Snapshot) : Bool :=
  truthyS (sget overridableFiles quizFileName) ||
    (!truthyS (sget overridableFiles quizFileName) &&
      !truthyS (sget playgroundSnapshot quizFileName))

open Classical in
theorem calcOverridable_fold (snap cache : Snapshot) (k : String)
    (l : List (String × String)) (hl : ∀ p ∈ l, sget snap p.1 = some p.2) :
    ∀ acc : Snapshot,
      sget (l.foldl (fun result p =>
        if sget snap p.1 = sget cache p.1 then sset result p.1 p.2 else result) acc) k =
      if (∃ v, (k, v) ∈ l ∧ sget snap k = some v ∧ sget cache k = some v)
        then sget snap k else sget acc k := by
  induction l with
  | nil =>
    intro acc
    rw [if_neg (by simp)]
    rfl
  | cons p t ih =>
    intro acc
    rw [List.foldl_cons]
    have hp : sget snap p.1 = some p.2 := hl p (List.mem_cons_self p t)
    have ht : ∀ q ∈ t, sget snap q.1 = some q.2 := fun q hq => hl q (List.mem_cons_of_mem p hq)
    rw [ih ht]
    by_cases hex : ∃ v, (k, v) ∈ t ∧ sget snap k = some v ∧ sget cache k = some v
    · rw [if_pos hex, if_pos (by
        obtain ⟨v, hv1, hv2, hv3⟩ := hex
        exact ⟨v, List.mem_cons_of_mem p hv1, hv2, hv3⟩)]
    · rw [if_neg hex]
      by_cases hk : p.1 = k
      · subst hk
        by_cases hcond : sget snap p.1 = sget cache p.1
        · rw [if_pos hcond, sget_sset, if_pos rfl]
          rw [if_pos ⟨p.2, List.mem_cons_self p t, hp, by rw [← hcond]; exact hp⟩]
          exact hp.symm
        · rw [if_neg hcond]
          rw [if_neg (by
            rintro ⟨v, hv1, hv2, hv3⟩
            rcases List.mem_cons.mp hv1 with h1 | h1
            · have hv : p.2 = v := by simpa using (congrArg Prod.snd h1).symm
              exact hcond (by rw [hp, hv3, hv])
            · exact hex ⟨v, h1, hv2, hv3⟩)]
      · have hne : ∀ w : String, ¬ ((k, w) ∈ p :: t ∧ sget snap k = some w ∧
            sget cache k = some w) := by
          rintro v ⟨hv1, hv2, hv3⟩
          rcases List.mem_cons.mp hv1 with h1 | h1
          · exact hk (congrArg Prod.fst h1).symm
          · exact hex ⟨v, h1, hv2, hv3⟩
        by_cases hcond : sget snap p.1 = sget cache p.1
        · rw [if_pos hcond, sget_sset, if_neg (fun hh => hk hh.symm)]
          rw [if_neg (by rintro ⟨v, hv⟩; exact hne v hv)]
        · rw [if_neg hcond]
          rw [if_neg (by rintro ⟨v, hv⟩; exact hne v hv)]

open Classical in
/-- Characterisation of the overridable set: a filename is present (with its
current fingerprint) iff the current and cached fingerprints agree. -/
theorem sget_calculateOverridableFiles (cache snap : Snapshot) (k : String)
    (hnd : keysNodup snap) :
    sget (calculateOverridableFiles cache snap) k =
      if (∃ v, sget snap k = some v ∧ sget cache k = some v)
        then sget snap k else none := by
  unfold calculateOverridableFiles
  rw [calcOverridable_fold snap cache k snap (fun p hp => sget_of_mem hnd hp) []]
  by_cases hex : ∃ v, sget snap k = some v ∧ sget cache k = some v
  · rw [if_pos hex, if_pos (by
      obtain ⟨v, hv1, hv2⟩ := hex
      exact ⟨v, mem_of_sget_eq_some hv1, hv1, hv2⟩)]
  · rw [if_neg hex, if_neg (by
      rintro ⟨v, _, hv2, hv3⟩
      exact hex ⟨v, hv2, hv3⟩)]
    rfl

/-- C1: in keep-changes mode a target filename is written iff its current
on-disk fingerprint equals the persisted one (overridable), or it has no
entry in the current on-disk snapshot at all (brand-new); a file that is on
disk with a diverged fingerprint is skipped.  Fingerprints are hex digests,
hence never the empty string (hypothesis `hne`); `hnd` is the JS-object
unique-key invariant of the on-disk snapshot. -/
theorem keepChanges_writability_iff (cache snap : Snapshot) (q : String)
    (hnd : keysNodup snap)
    (hne : ∀ k v, (k, v) ∈ snap → v ≠ "") :
    isQuizWritable q (calculateOverridableFiles cache snap) snap = true ↔
      ((∃ v, sget snap q = some v ∧ sget cache q = some v) ∨ sget snap q = none) := by
  unfold isQuizWritable
  rw [sget_calculateOverridableFiles cache snap q hnd]
  by_cases hex : ∃ v, sget snap q = some v ∧ sget cache q = some v
  · rw [if_pos hex]
    obtain ⟨v, hv1, hv2⟩ := hex
    have hvne : v ≠ "" := hne q v (mem_of_sget_eq_some hv1)
    rw [hv1]
    constructor
    · intro _
      exact Or.inl ⟨v, rfl, hv2⟩
    · intro _
      simp [truthyS, hvne]
  · rw [if_neg hex]
    cases hsnap : sget snap q with
    | none => simp [truthyS]
    | some v =>
      have hvne : v ≠ "" := hne q v (mem_of_sget_eq_some hsnap)
      constructor
      · intro hcontra
        simp [truthyS, hvne] at hcontra
      · rintro (⟨w, hw1, hw2⟩ | hnone)
        · exact absurd ⟨w, hsnap.trans hw1, hw2⟩ hex
        · exact absurd hnone (by simp)

/-- Witness for C1: a concrete persisted cache and on-disk snapshot.
`a.ts` is untouched (fingerprints agree) hence writable; the brand-new
`c.ts` has no on-disk entry hence is writable; the human-edited `b.ts`
(fingerprints diverge) is not writable. -/
theorem keepChanges_writability_iff_witness :
    keysNodup [("a.ts", "h1"), ("b.ts", "hX")] ∧
    (isQuizWritable "a.ts"
      (calculateOverridableFiles [("a.ts", "h1"), ("b.ts", "h2")]
        [("a.ts", "h1"), ("b.ts", "hX")])
      [("a.ts", "h1"), ("b.ts", "hX")] = true ↔
      ((∃ v, sget [("a.ts", "h1"), ("b.ts", "hX")] "a.ts" = some v ∧
          sget [("a.ts", "h1"), ("b.ts", "h2")] "a.ts" = some v) ∨
        sget [("a.ts", "h1"), ("b.ts", "hX")] "a.ts" = none)) := by
  constructor
  · decide
  · exact keepChanges_writability_iff [("a.ts", "h1"), ("b.ts", "h2")]
      [("a.ts", "h1"), ("b.ts", "hX")] "a.ts" (by decide)
      (by
        intro k v h
        rcases List.mem_cons.mp h with h1 | h1
        · cases h1
          decide
        · rcases List.mem_cons.mp h1 with h2 | h2
          · cases h2
            decide
          · simp at h2)

/-- C2: loading the persisted snapshot returns the empty snapshot when the
cache file does not exist, aborts the run (`process.exit(1)`) when the file
exists but does not parse, and in particular never returns any snapshot
(empty or not) for unparsable content. -/
theorem readPlaygroundCache_spec (parseJson : String → Option Snapshot) :
    readPlaygroundCache none parseJson = .ok [] ∧
    (∀ content, parseJson content = none →
      readPlaygroundCache (some content) parseJson = .fatalExit 1) ∧
    (∀ content s, parseJson content = none →
      readPlaygroundCache (some content) parseJson ≠ .ok s) := by
  refine ⟨rfl, ?_, ?_⟩
  · intro content h
    simp [readPlaygroundCache, h]
  · intro content s h
    simp [readPlaygroundCache, h]

/-- Witness for C2: with a `JSON.parse` collaborator that rejects every
input, a missing cache file still loads as the empty snapshot, and an
existing-but-corrupt cache file aborts the run. -/
theorem readPlaygroundCache_spec_witness :
    readPlaygroundCache none (fun _ => none) = .ok [] ∧
    readPlaygroundCache (some "corrupt \x7b") (fun _ => none) = .fatalExit 1 :=
  ⟨(readPlaygroundCache_spec (fun _ => none)).1,
    (readPlaygroundCache_spec (fun _ => none)).2.1 "corrupt \x7b" rfl⟩

/-- C6: the fingerprint is the digest of the file content followed by the
file's own path, so for any injective digest primitive, two files with
identical content but different paths receive different fingerprints. -/
theorem calculateFileHash_path_seeded (digest : String → String)
    (hinj : Function.Injective digest) (content p q : String) (hpq : p ≠ q) :
    calculateFileHash digest content p ≠ calculateFileHash digest content q := by
  unfold calculateFileHash
  intro h
  apply hpq
  have hd := congrArg String.data (hinj h)
  rw [String.data_append, String.data_append] at hd
  exact String.ext (List.append_cancel_left hd)

/-- Witness for C6: the identity digest is injective, and identical content
at two different paths fingerprints differently. -/
theorem calculateFileHash_path_seeded_witness :
    calculateFileHash (fun s => s) "const a = 1" "easy/1-easy-a.ts" ≠
      calculateFileHash (fun s => s) "const a = 1" "hard/1-hard-a.ts" :=
  calculateFileHash_path_seeded (fun s => s) (fun _ _ h => h)
    "const a = 1" "easy/1-easy-a.ts" "hard/1-hard-a.ts" (by decide)

/-! ## `loader.ts`: locale metadata resolution (`resolveInfo`)

`quiz.info` maps locale codes to partial metadata records
(`Record<string, DeepPartial<QuizMetaInfo> | undefined>`); `loadInfo`
normalises `tags`/`related` to comma-split string lists (or leaves the field
undefined).  `resolveInfo` performs the first-level merge
`Object.assign({}, quiz.info[defaultLocale], quiz.info[locale])` — a
target-locale field wins whenever it is present, nested objects such as
`author` are replaced wholesale — then overrides the two list fields with
`quiz.info[locale]?.tags || quiz.info[defaultLocale]?.tags || []` (and the
same for `related`).  A JS array is truthy even when empty, so the `||`
chain is `Option.or` on the optional list fields.  The final
`typeof info.tags === 'string'` normalisation in the source is unreachable
for inputs produced by `loadInfo` (which always yields lists) and has no
counterpart in the typed embedding. -/

/-- The designated default locale (`defaultLocale` in `locales.ts`). -/
def defaultLocale : String := "en"

/-- Nested `author` object of `QuizMetaInfo` (deep-partial form). -/
structure AuthorInfo where
  name : Option String
  email : Option String
  github : Option String
deriving DecidableEq

/-- One locale's partial metadata as produced by `loadInfo`. -/
structure PartialMeta where
  title : Option String := none
  author : Option AuthorInfo := none
  tags : Option (List String) := none
  related : Option (List String) := none
deriving DecidableEq

/-- The record returned by `resolveInfo`: `tags`/`related` are always
lists; the scalar fields may still be absent (checked by callers with
`=== undefined`). -/
structure ResolvedMeta where
  title : Option String
  author : Option AuthorInfo
  tags : List String
  related : List String
deriving DecidableEq

/-- `resolveInfo` from `loader.ts`; `qinfo` is `quiz.info` as a map from
locale code to optional partial metadata. -/
def resolveInfo (qinfo : String → Option PartialMeta) (locale : String) :
    ResolvedMeta :=
  { title := ((qinfo locale).bind PartialMeta.title).or
      ((qinfo defaultLocale).bind PartialMeta.title)
    author := ((qinfo locale).bind PartialMeta.author).or
      ((qinfo defaultLocale).bind PartialMeta.author)
    tags := (((qinfo locale).bind PartialMeta.tags).or
      ((qinfo defaultLocale).bind PartialMeta.tags)).getD []
    related := (((qinfo locale).bind PartialMeta.related).or
      ((qinfo defaultLocale).bind PartialMeta.related)).getD [] }

/-- C3: when a quiz's metadata is defined only in the default locale,
resolving any target locale yields exactly the resolution of the default
locale itself; and every field defined in both locales resolves to the
target-locale value. -/
theorem resolveInfo_locale_rules (qinfo : String → Option PartialMeta)
    (locale : String) :
    (qinfo locale = none →
      resolveInfo qinfo locale = resolveInfo qinfo defaultLocale) ∧
    (∀ dm tm, qinfo defaultLocale = some dm → qinfo locale = some tm →
      (∀ v w, dm.title = some w → tm.title = some v →
        (resolveInfo qinfo locale).title = some v) ∧
      (∀ a b, dm.author = some b → tm.author = some a →
        (resolveInfo qinfo locale).author = some a) ∧
      (∀ l m, dm.tags = some m → tm.tags = some l →
        (resolveInfo qinfo locale).tags = l) ∧
      (∀ l m, dm.related = some m → tm.related = some l →
        (resolveInfo qinfo locale).related = l)) := by
  constructor
  · intro h
    have key : ∀ {α : Type} (f : PartialMeta → Option α),
        ((none : Option PartialMeta).bind f).or ((qinfo defaultLocale).bind f) =
          ((qinfo defaultLocale).bind f).or ((qinfo defaultLocale).bind f) := by
      intro α f
      cases (qinfo defaultLocale).bind f <;> rfl
    unfold resolveInfo
    rw [h, key PartialMeta.title, key PartialMeta.author, key PartialMeta.tags,
      key PartialMeta.related]
  · intro dm tm hd ht
    refine ⟨?_, ?_, ?_, ?_⟩
    · intro v w _ htm
      unfold resolveInfo
      rw [hd, ht]
      show ((some tm).bind PartialMeta.title).or _ = some v
      rw [Option.some_bind, htm]
      rfl
    · intro a b _ htm
      unfold resolveInfo
      rw [hd, ht]
      show ((some tm).bind PartialMeta.author).or _ = some a
      rw [Option.some_bind, htm]
      rfl
    · intro l m _ htm
      unfold resolveInfo
      rw [hd, ht]
      show (((some tm).bind PartialMeta.tags).or _).getD [] = l
      rw [Option.some_bind, htm]
      rfl
    · intro l m _ htm
      unfold resolveInfo
      rw [hd, ht]
      show (((some tm).bind PartialMeta.related).or _).getD [] = l
      rw [Option.some_bind, htm]
      rfl

/-- A concrete `quiz.info`: full metadata in the default locale `en`, a
partial override (title and tags only) in `ja`, nothing in `de`. -/
def qinfoC3 : String → Option PartialMeta := fun l =>
  if l = "en" then
    some { title := some "Pick", author := some ⟨some "A", none, some "ga"⟩,
           tags := some ["union", "keyof"], related := some ["4", "7"] }
  else if l = "ja" then
    some { title := some "Pick-ja", tags := some ["kyotsu"] }
  else none

/-- Witness for C3: `de` has no metadata, so resolution for `de` equals the
default-locale resolution; `ja` defines `title` and `tags`, which win over
the default locale's values. -/
theorem resolveInfo_locale_rules_witness :
    (qinfoC3 "de" = none ∧
      resolveInfo qinfoC3 "de" = resolveInfo qinfoC3 "en") ∧
    (resolveInfo qinfoC3 "ja").title = some "Pick-ja" ∧
    (resolveInfo qinfoC3 "ja").tags = ["kyotsu"] :=
  ⟨⟨by decide, (resolveInfo_locale_rules qinfoC3 "de").1 (by decide)⟩,
    ((resolveInfo_locale_rules qinfoC3 "ja").2
      { title := some "Pick", author := some ⟨some "A", none, some "ga"⟩,
        tags := some ["union", "keyof"], related := some ["4", "7"] }
      { title := some "Pick-ja", tags := some ["kyotsu"] }
      (by decide) (by decide)).1 "Pick-ja" "Pick" (by decide) (by decide),
    ((resolveInfo_locale_rules qinfoC3 "ja").2
      { title := some "Pick", author := some ⟨some "A", none, some "ga"⟩,
        tags := some ["union", "keyof"], related := some ["4", "7"] }
      { title := some "Pick-ja", tags := some ["kyotsu"] }
      (by decide) (by decide)).2.2.1 ["kyotsu"] ["union", "keyof"]
      (by decide) (by decide)⟩

/-- C4: the resolved `tags` and `related` are the target locale's list when
defined (never a concatenation, even when both locales define one),
otherwise the default locale's list when defined, otherwise `[]`; by the
result type they are always lists, never `undefined`. -/
theorem resolveInfo_tags_related_rule (qinfo : String → Option PartialMeta)
    (locale : String) :
    (∀ l, (qinfo locale).bind PartialMeta.tags = some l →
      (resolveInfo qinfo locale).tags = l) ∧
    ((qinfo locale).bind PartialMeta.tags = none →
      ∀ l, (qinfo defaultLocale).bind PartialMeta.tags = some l →
        (resolveInfo qinfo locale).tags = l) ∧
    ((qinfo locale).bind PartialMeta.tags = none →
      (qinfo defaultLocale).bind PartialMeta.tags = none →
      (resolveInfo qinfo locale).tags = []) ∧
    (∀ l, (qinfo locale).bind PartialMeta.related = some l →
      (resolveInfo qinfo locale).related = l) ∧
    ((qinfo locale).bind PartialMeta.related = none →
      ∀ l, (qinfo defaultLocale).bind PartialMeta.related = some l →
        (resolveInfo qinfo locale).related = l) ∧
    ((qinfo locale).bind PartialMeta.related = none →
      (qinfo defaultLocale).bind PartialMeta.related = none →
      (resolveInfo qinfo locale).related = []) := by
  refine ⟨?_, ?_, ?_, ?_, ?_, ?_⟩
  · intro l h
    show (((qinfo locale).bind PartialMeta.tags).or _).getD [] = l
    rw [h]
    rfl
  · intro h l h'
    show (((qinfo locale).bind PartialMeta.tags).or _).getD [] = l
    rw [h, h']
    rfl
  · intro h h'
    show (((qinfo locale).bind PartialMeta.tags).or _).getD [] = []
    rw [h, h']
    rfl
  · intro l h
    show (((qinfo locale).bind PartialMeta.related).or _).getD [] = l
    rw [h]
    rfl
  · intro h l h'
    show (((qinfo locale).bind PartialMeta.related).or _).getD [] = l
    rw [h, h']
    rfl
  · intro h h'
    show (((qinfo locale).bind PartialMeta.related).or _).getD [] = []
    rw [h, h']
    rfl

/-- Witness for C4: default `tags = [a, b]`, target `tags = [c]` resolve to
`[c]` (no concatenation); with both locales omitting `related`, the result
is the empty list, not `undefined`. -/
theorem resolveInfo_tags_related_rule_witness :
    (resolveInfo
      (fun l => if l = "en"
        then some { title := some "T", tags := some ["a", "b"] }
        else some { tags := some ["c"] })
      "ja").tags = ["c"] ∧
    (resolveInfo
      (fun l => if l = "en"
        then some { title := some "T", tags := some ["a", "b"] }
        else some { tags := some ["c"] })
      "ja").related = [] :=
  ⟨(resolveInfo_tags_related_rule
      (fun l => if l = "en"
        then some { title := some "T", tags := some ["a", "b"] }
        else some { tags := some ["c"] }) "ja").1 ["c"] (by decide),
    (resolveInfo_tags_related_rule
      (fun l => if l = "en"
        then some { title := some "T", tags := some ["a", "b"] }
        else some { tags := some ["c"] }) "ja").2.2.2.2.2 (by decide) (by decide)⟩

/-! ## `loader.ts`: folder-name parsing in `loadQuiz`

`loadQuiz` derives the quiz number and the difficulty from the folder name:

* `no` is `Number(dir.replace(/^(\d+)-.*/, '$1'))`;
* `difficulty` is `dir.replace(/^\d+-(.+?)-.*$/, '$1') as any`.

`String.replace` with an unmatched pattern returns the string unchanged.
`^\d+-` matches the maximal leading digit run followed by a dash
(backtracking into the digit run cannot help since `-` is not a digit);
the lazy group `(.+?)` then extends to the first dash that appears after at
least one character.  Folder names contain no newline, so `.`/`$` subtleties
do not arise.  Crucially, the extracted difficulty is cast with `as any`
and never validated against the `Difficulty` enum, and no code path throws:
`loadQuiz` succeeds whatever the difficulty text is. -/

/-- The text the regex `/^(\d+)-.*/` replacement passes to `Number`:
the leading digit run when the pattern matches, the folder name unchanged
otherwise. -/
def quizNoText (dir : List Char) : List Char :=
  if (dir.takeWhile Char.isDigit).isEmpty then dir
  else
    match dir.drop (dir.takeWhile Char.isDigit).length with
    | '-' :: _ => dir.takeWhile Char.isDigit
    | _ => dir

/-- The difficulty produced by `dir.replace(/^\d+-(.+?)-.*$/, '$1')`:
the segment between the dash ending the leading digit run and the next
dash, or the folder name unchanged when the pattern does not match. -/
def parseDifficulty (dir : List Char) : List Char :=
  if (dir.takeWhile Char.isDigit).isEmpty then dir
  else
    match dir.drop (dir.takeWhile Char.isDigit).length with
    | '-' :: c0 :: r1 =>
      if r1.contains '-' then c0 :: r1.takeWhile (fun c => !(c == '-'))
      else dir
    | _ => dir

/-- The folder-derived fields of the `Quiz` record built by `loadQuiz`. -/
structure QuizCore where
  noText : List Char
  difficulty : List Char
  path : List Char
deriving DecidableEq

/-- The folder-name part of `loadQuiz`.  The result is always `some`:
`loadQuiz` has no validation or failure path for the difficulty (the
`try`/`catch` only rethrows exceptions of the file loads, and the regex
replacements never throw). -/
def loadQuizCore (dir : List Char) : Option QuizCore :=
  some { noText := quizNoText dir, difficulty := parseDifficulty dir, path := dir }

/-- The `Difficulty` enum of `types.ts`. -/
def difficulties : List (List Char) :=
  ["warm".data, "easy".data, "medium".data, "hard".data, "extreme".data,
    "pending".data]

theorem takeWhile_append_cons {p : Char → Bool} {d : List Char} {x : Char}
    (t : List Char) (hd : ∀ c ∈ d, p c = true) (hx : p x = false) :
    (d ++ x :: t).takeWhile p = d := by
  induction d with
  | nil => simp [List.takeWhile_cons, hx]
  | cons c d ih =>
    rw [List.cons_append, List.takeWhile_cons,
      hd c (List.mem_cons_self c d)]
    rw [ih (fun c hc => hd c (List.mem_cons_of_mem _ hc))]
    simp

/-- C7 counterexample: the folder `1-banana-foo` has the difficulty text
`banana`, which is not one of the `Difficulty` enum values, and yet
`loadQuiz` succeeds (returns the quiz record; nothing fails). -/
theorem loadQuiz_accepts_unknown_difficulty :
    loadQuizCore "1-banana-foo".data =
      some { noText := "1".data, difficulty := "banana".data,
             path := "1-banana-foo".data } ∧
    "banana".data ∉ difficulties := by
  constructor
  · decide
  · decide

/-- C7 amended: for a folder name `<digits>-<seg>-<rest>` (nonempty digit
run, nonempty dash-free segment), `loadQuiz` always succeeds and its
difficulty field is exactly the extracted segment, whether or not that
segment is one of the enum values; no validation happens. -/
theorem loadQuiz_difficulty_unvalidated (d m r : List Char)
    (hd : d ≠ []) (hdig : ∀ c ∈ d, c.isDigit = true)
    (hm : m ≠ []) (hmd : '-' ∉ m) :
    loadQuizCore (d ++ '-' :: (m ++ '-' :: r)) =
      some { noText := d, difficulty := m, path := d ++ '-' :: (m ++ '-' :: r) } := by
  obtain ⟨c0, m', rfl⟩ : ∃ c0 m', m = c0 :: m' := by
    cases m with
    | nil => exact absurd rfl hm
    | cons a b => exact ⟨a, b, rfl⟩
  have h1 : (d ++ '-' :: ((c0 :: m') ++ '-' :: r)).takeWhile Char.isDigit = d :=
    takeWhile_append_cons _ hdig (by decide)
  have h2 : (d ++ '-' :: ((c0 :: m') ++ '-' :: r)).drop d.length =
      '-' :: ((c0 :: m') ++ '-' :: r) := by
    rw [List.drop_left]
  have hie : d.isEmpty = false := by
    cases d with
    | nil => exact absurd rfl hd
    | cons a b => rfl
  have h3 : (m' ++ '-' :: r).contains '-' = true := by
    have : '-' ∈ m' ++ '-' :: r :=
      List.mem_append_right m' (List.mem_cons_self '-' r)
    exact List.elem_iff.mpr this
  have h4 : (m' ++ '-' :: r).takeWhile (fun c => !(c == '-')) = m' := by
    apply takeWhile_append_cons
    · intro c hc
      have hcne : c ≠ '-' := by
        intro hcontra
        rw [hcontra] at hc
        exact hmd (List.mem_cons_of_mem c0 hc)
      simp [hcne]
    · simp
  unfold loadQuizCore quizNoText parseDifficulty
  rw [h1, h2, hie]
  simp only [Bool.false_eq_true, if_false, List.cons_append, h3, if_true, h4]

/-- Witness for C7 amended: the well-formed folder `104-hard-foo-bar`. -/
theorem loadQuiz_difficulty_unvalidated_witness :
    loadQuizCore "104-hard-foo-bar".data =
      some { noText := "104".data, difficulty := "hard".data,
             path := "104-hard-foo-bar".data } := by
  have := loadQuiz_difficulty_unvalidated "104".data "hard".data "foo-bar".data
    (by decide) (by decide) (by decide) (by decide)
  simpa using this

/-! ## `readme.ts`: difficulty ranking in `updateIndexREADME`

`updateIndexREADME` sorts `[...quizes]` with the comparator
`(a, b) => DifficultyRank.indexOf(a.difficulty) - DifficultyRank.indexOf(b.difficulty)`.
`Array.prototype.indexOf` returns `-1` for an element not in the array;
`Array.prototype.sort` produces a (stable) ordering that is ascending with
respect to the comparator, modelled here by `List.mergeSort`. -/

/-- `DifficultyRank` from `readme.ts` — note `pending` is not ranked. -/
def DifficultyRank : List String := ["warm", "easy", "medium", "hard", "extreme"]

/-- JS `Array.prototype.indexOf`: the index of the first occurrence, or
`-1` when absent. -/
def jsIndexOf (l : List String) (x : String) : Int :=
  match l.findIdx? (fun y => y == x) with
  | some i => (i : Int)
  | none => -1

/-- A quiz as seen by the index sorter. -/
structure QuizEntry where
  no : Nat
  difficulty : String
deriving DecidableEq

/-- The sort `[...quizes].sort((a, b) => rank.indexOf(a) - rank.indexOf(b))`
of `updateIndexREADME`. -/
def sortByDifficulty (quizes : List QuizEntry) : List QuizEntry :=
  quizes.mergeSort (fun a b =>
    jsIndexOf DifficultyRank a.difficulty ≤ jsIndexOf DifficultyRank b.difficulty)

/-- C8: the regenerated index lists the quizzes sorted (and hence grouped)
by rank position, the rank realises the fixed total order
`warm < easy < medium < hard < extreme`, no quiz is dropped (the sorted
list is a permutation), and `pending` is excluded from the ranking
(`indexOf` yields `-1`). -/
theorem updateIndex_difficulty_order (qs : List QuizEntry) :
    List.Pairwise (fun a b =>
      jsIndexOf DifficultyRank a.difficulty ≤ jsIndexOf DifficultyRank b.difficulty)
      (sortByDifficulty qs) ∧
    (sortByDifficulty qs).Perm qs ∧
    (jsIndexOf DifficultyRank "warm" < jsIndexOf DifficultyRank "easy" ∧
      jsIndexOf DifficultyRank "easy" < jsIndexOf DifficultyRank "medium" ∧
      jsIndexOf DifficultyRank "medium" < jsIndexOf DifficultyRank "hard" ∧
      jsIndexOf DifficultyRank "hard" < jsIndexOf DifficultyRank "extreme") ∧
    "pending" ∉ DifficultyRank ∧ jsIndexOf DifficultyRank "pending" = -1 := by
  refine ⟨?_, List.mergeSort_perm qs _, by decide, by decide, by decide⟩
  have h := @List.sorted_mergeSort QuizEntry
    (fun a b : QuizEntry =>
      decide (jsIndexOf DifficultyRank a.difficulty ≤ jsIndexOf DifficultyRank b.difficulty))
    (fun a b c hab hbc =>
      decide_eq_true_eq.mpr
        (le_trans (of_decide_eq_true hab) (of_decide_eq_true hbc)))
    (fun a b => by
      rcases le_total (jsIndexOf DifficultyRank a.difficulty)
        (jsIndexOf DifficultyRank b.difficulty) with h | h
      · simp [h]
      · simp [h])
    qs
  exact h.imp (fun hab => of_decide_eq_true hab)

/-! ## `generate.ts`: directory snapshots (`takeSnapshot`)

`takeSnapshot(quizesPath)` iterates `fs.readdirSync` entries in order; for a
subdirectory it recurses and spreads the sub-snapshot over the accumulated
one (`snapshot = {...snapshot, ...(await takeSnapshot(fPath))}`), for a file
it assigns `snapshot[file] = await calculateFileHash(fPath)`.  The snapshot
key is the *bare* filename, while the hashed path is the joined full path.
The filesystem is modelled as an explicit tree of entries in directory
order. -/

/-- `path.join` for the paths appearing here (no normalisation needed). -/
def pjoin (a b : String) : String := a ++ "/" ++ b

/-- A directory entry: a file with content, or a subdirectory. -/
inductive FSEntry where
  | file (name : String) (content : String)
  | dir (name : String) (entries : List FSEntry)

/-- The loop body of `takeSnapshot`, over the entries of the directory at
`base`, accumulating into `acc`. -/
def takeSnapshotList (digest : String → String) :
    String → List FSEntry → Snapshot → Snapshot
  | _, [], acc => acc
  | base, .file n c :: rest, acc =>
    takeSnapshotList digest base rest
      (sset acc n (calculateFileHash digest c (pjoin base n)))
  | base, .dir n es :: rest, acc =>
    takeSnapshotList digest base rest
      (smerge acc (takeSnapshotList digest (pjoin base n) es []))

/-- `takeSnapshot` from `generate.ts` over the directory at `base` holding
`entries`, with the external SHA-1 primitive `digest`. -/
def takeSnapshot (digest : String → String) (base : String)
    (entries : List FSEntry) : Snapshot :=
  takeSnapshotList digest base entries []

/-- C9: two files with the same bare name in different subdirectories
collide on the snapshot key: the resulting snapshot holds exactly one entry
for that name, carrying the fingerprint of the file visited later in the
traversal; the function returns this snapshot normally (no error value
exists in its type, so no diagnostic is possible). -/
theorem takeSnapshot_name_collision (digest : String → String)
    (base d1 d2 n c1 c2 : String) :
    takeSnapshot digest base
      [.dir d1 [.file n c1], .dir d2 [.file n c2]] =
      [(n, calculateFileHash digest c2 (pjoin (pjoin base d2) n))] := by
  have e1 : ∀ h : String, sset ([] : Snapshot) n h = [(n, h)] := by
    intro h
    unfold sset
    simp [sget]
  have e2 : ∀ h : String, smerge ([] : Snapshot) [(n, h)] = [(n, h)] := by
    intro h
    unfold smerge
    simp only [List.foldl_cons, List.foldl_nil]
    exact e1 h
  have e3 : ∀ h1 h2 : String, smerge [(n, h1)] [(n, h2)] = [(n, h2)] := by
    intro h1 h2
    unfold smerge
    simp only [List.foldl_cons, List.foldl_nil]
    unfold sset
    simp [sget]
  unfold takeSnapshot
  simp only [takeSnapshotList]
  rw [e1, e2, e1, e3]

/-! ## `generate.ts`: the keep-changes generation loop (`generatePlayground`)

In keep-changes mode (`--keep-changes`/`-K`) the generator never wipes the
playground (`fs.remove` runs only in the `!keepChanges` branch).  For each
loaded quiz it resolves `difficulty`/`title` for the chosen locale, skips
the quiz (`continue`) when either is `undefined`, and otherwise writes
`playground/<difficulty>/<quizFileName>` iff
`!keepChanges || isQuizWritable(...)`.  Nothing else touches the
filesystem inside the loop (directory creation aside, which affects no
file).  The on-disk state is modelled as a path → content dictionary, with
`fs.writeFile` as property assignment.  The quiz filename
`getQuestionFullName(quiz.no, difficulty, title) + '.ts'` is computed by
code outside the embedded sources and is abstracted as the parameter
`fname`. -/

/-- A quiz as it reaches the generation loop: its resolved difficulty and
title (either can be `undefined`) and the code text produced by
`formatToCode`. -/
structure GenItem where
  no : Nat
  difficulty : Option String
  title : Option String
  code : String

/-- The playground directory (relative to the repository root). -/
def playgroundPath : String := "playground"

/-- The full path the keep-changes generation loop *actually writes* for an
item: `none` when the item is skipped for a missing resolved difficulty or
title, and also `none` when the quiz file is not writable (its on-disk
fingerprint diverged from the persisted one, i.e. it was edited by hand). -/
def quizWrittenPath (fname : Nat → String → String → String)
    (overridableFiles playgroundSnapshot : Snapshot) (it : GenItem) :
    Option String :=
  match it.difficulty, it.title with
  | some d, some t =>
    if isQuizWritable (fname it.no d t) overridableFiles playgroundSnapshot then
      some (pjoin (pjoin playgroundPath d) (fname it.no d t))
    else none
  | _, _ => none

/-- `fs.remove(playgroundPath)`: deletes every file under the playground. -/
def wipePlayground (fs : Snapshot) : Snapshot :=
  fs.filter (fun p => !((playgroundPath ++ "/").isPrefixOf p.1))

/-- The filesystem effect of `generatePlayground`'s generation loop (and of
the preceding wipe in full-regenerate mode): in keep-changes mode each
non-skipped, writable item is written; in full mode the playground is wiped
first and every non-skipped item is written. -/
def generatePlaygroundFS (keepChanges : Bool)
    (fname : Nat → String → String → String)
    (overridableFiles playgroundSnapshot : Snapshot)
    (items : List GenItem) (fs : Snapshot) : Snapshot :=
  items.foldl (fun acc it =>
    match it.difficulty, it.title with
    | some d, some t =>
      if !keepChanges ||
          isQuizWritable (fname it.no d t) overridableFiles playgroundSnapshot then
        sset acc (pjoin (pjoin playgroundPath d) (fname it.no d t)) it.code
      else acc
    | _, _ => acc)
    (if keepChanges then fs else wipePlayground fs)

theorem generate_fold_frame_unwritten (fname : Nat → String → String → String)
    (overridableFiles playgroundSnapshot : Snapshot) (p : String) :
    ∀ (items : List GenItem) (fs : Snapshot),
      (∀ it ∈ items,
        quizWrittenPath fname overridableFiles playgroundSnapshot it ≠ some p) →
      sget (items.foldl (fun acc it =>
        match it.difficulty, it.title with
        | some d, some t =>
          if isQuizWritable (fname it.no d t) overridableFiles playgroundSnapshot then
            sset acc (pjoin (pjoin playgroundPath d) (fname it.no d t)) it.code
          else acc
        | _, _ => acc) fs) p = sget fs p := by
  intro items
  induction items with
  | nil =>
    intro fs _
    rfl
  | cons it rest ih =>
    intro fs hnot
    rw [List.foldl_cons]
    rw [ih _ (fun x hx => hnot x (List.mem_cons_of_mem it hx))]
    have hit := hnot it (List.mem_cons_self it rest)
    cases hdiff : it.difficulty with
    | none =>
      cases htit : it.title <;> rfl
    | some d =>
      cases htit : it.title with
      | none => rfl
      | some t =>
        by_cases hw : isQuizWritable (fname it.no d t) overridableFiles
            playgroundSnapshot = true
        · have hp : pjoin (pjoin playgroundPath d) (fname it.no d t) ≠ p := by
            intro hcontra
            apply hit
            unfold quizWrittenPath
            rw [hdiff, htit]
            show (if isQuizWritable (fname it.no d t) overridableFiles
                playgroundSnapshot = true then
              some (pjoin (pjoin playgroundPath d) (fname it.no d t))
              else none) = some p
            rw [if_pos hw]
            exact congrArg some hcontra
          simp only [hw, if_true]
          rw [sget_sset]
          rw [if_neg (fun hc => hp hc.symm)]
        · simp only [hw]
          rfl

theorem generate_fold_no_delete (fname : Nat → String → String → String)
    (keepChanges : Bool) (overridableFiles playgroundSnapshot : Snapshot)
    (p : String) :
    ∀ (items : List GenItem) (fs : Snapshot) (c : String),
      sget fs p = some c →
      ∃ c', sget (items.foldl (fun acc it =>
        match it.difficulty, it.title with
        | some d, some t =>
          if !keepChanges ||
              isQuizWritable (fname it.no d t) overridableFiles playgroundSnapshot then
            sset acc (pjoin (pjoin playgroundPath d) (fname it.no d t)) it.code
          else acc
        | _, _ => acc) fs) p = some c' := by
  intro items
  induction items with
  | nil =>
    intro fs c h
    exact ⟨c, h⟩
  | cons it rest ih =>
    intro fs c h
    rw [List.foldl_cons]
    cases hdiff : it.difficulty with
    | none =>
      cases htit : it.title <;> exact ih fs c h
    | some d =>
      cases htit : it.title with
      | none => exact ih fs c h
      | some t =>
        by_cases hw : (!keepChanges ||
            isQuizWritable (fname it.no d t) overridableFiles playgroundSnapshot) = true
        · simp only [hw, if_true]
          by_cases hp : p = pjoin (pjoin playgroundPath d) (fname it.no d t)
          · exact ih _ it.code (by rw [sget_sset, if_pos hp])
          · exact ih _ c (by rw [sget_sset, if_neg hp, h])
        · simp only [hw]
          exact ih fs c h

/-- C10: in keep-changes mode the playground generator deletes nothing and
touches no file it does not actually write: any path that is not the
written path of some item — files of quizzes skipped for a missing
resolved title or difficulty, files of quizzes no longer in the corpus,
and hand-edited files of present quizzes whose diverged fingerprint makes
them non-writable — keeps its exact content, and every file that exists
before the run still exists after it (writes only, no removals); the wipe
(`fs.remove`) happens only in full-regenerate mode. -/
theorem generateKeepChanges_frame (fname : Nat → String → String → String)
    (overridableFiles playgroundSnapshot : Snapshot)
    (items : List GenItem) (fs : Snapshot) :
    (∀ p, (∀ it ∈ items,
        quizWrittenPath fname overridableFiles playgroundSnapshot it ≠ some p) →
      sget (generatePlaygroundFS true fname overridableFiles playgroundSnapshot
        items fs) p = sget fs p) ∧
    (∀ p c, sget fs p = some c →
      ∃ c', sget (generatePlaygroundFS true fname overridableFiles
        playgroundSnapshot items fs) p = some c') := by
  constructor
  · intro p hnot
    unfold generatePlaygroundFS
    rw [if_pos rfl]
    simp only [Bool.not_true, Bool.false_or]
    exact generate_fold_frame_unwritten fname overridableFiles playgroundSnapshot
      p items fs hnot
  · intro p c h
    unfold generatePlaygroundFS
    rw [if_pos rfl]
    exact generate_fold_no_delete fname true overridableFiles playgroundSnapshot p
      items fs c h

/-- Witness for C10: quiz 1 is still in the corpus and resolves for the
locale, but its playground file was hand-edited (current fingerprint
`hEdited` has no matching overridable entry), so the quiz is not written
and the edited content survives; a stale file of a quiz no longer in the
corpus also keeps its content, while quiz 2 is skipped for a missing
title; and every pre-existing file still exists after the run. -/
theorem generateKeepChanges_frame_witness :
    sget (generatePlaygroundFS true
      (fun n d t => toString n ++ "-" ++ d ++ "-" ++ t ++ ".ts")
      [] [("1-easy-a.ts", "hEdited")]
      [⟨1, some "easy", some "a", "regen"⟩, ⟨2, none, some "b", "code2"⟩]
      [("playground/easy/1-easy-a.ts", "edited by hand"),
        ("playground/easy/9-easy-gone.ts", "stale")])
      "playground/easy/1-easy-a.ts" = some "edited by hand" ∧
    sget (generatePlaygroundFS true
      (fun n d t => toString n ++ "-" ++ d ++ "-" ++ t ++ ".ts")
      [] [("1-easy-a.ts", "hEdited")]
      [⟨1, some "easy", some "a", "regen"⟩, ⟨2, none, some "b", "code2"⟩]
      [("playground/easy/1-easy-a.ts", "edited by hand"),
        ("playground/easy/9-easy-gone.ts", "stale")])
      "playground/easy/9-easy-gone.ts" = some "stale" ∧
    ∃ c', sget (generatePlaygroundFS true
      (fun n d t => toString n ++ "-" ++ d ++ "-" ++ t ++ ".ts")
      [] [("1-easy-a.ts", "hEdited")]
      [⟨1, some "easy", some "a", "regen"⟩, ⟨2, none, some "b", "code2"⟩]
      [("playground/easy/1-easy-a.ts", "edited by hand"),
        ("playground/easy/9-easy-gone.ts", "stale")])
      "playground/easy/9-easy-gone.ts" = some c' := by
  refine ⟨?_, ?_, ?_⟩
  · have h := (generateKeepChanges_frame
      (fun n d t => toString n ++ "-" ++ d ++ "-" ++ t ++ ".ts")
      [] [("1-easy-a.ts", "hEdited")]
      [⟨1, some "easy", some "a", "regen"⟩, ⟨2, none, some "b", "code2"⟩]
      [("playground/easy/1-easy-a.ts", "edited by hand"),
        ("playground/easy/9-easy-gone.ts", "stale")]).1
      "playground/easy/1-easy-a.ts"
      (by
        intro it hit
        rcases List.mem_cons.mp hit with h1 | h1
        · subst h1
          decide
        · rcases List.mem_cons.mp h1 with h2 | h2
          · subst h2
            decide
          · simp at h2)
    rw [h]
    decide
  · have h := (generateKeepChanges_frame
      (fun n d t => toString n ++ "-" ++ d ++ "-" ++ t ++ ".ts")
      [] [("1-easy-a.ts", "hEdited")]
      [⟨1, some "easy", some "a", "regen"⟩, ⟨2, none, some "b", "code2"⟩]
      [("playground/easy/1-easy-a.ts", "edited by hand"),
        ("playground/easy/9-easy-gone.ts", "stale")]).1
      "playground/easy/9-easy-gone.ts"
      (by
        intro it hit
        rcases List.mem_cons.mp hit with h1 | h1
        · subst h1
          decide
        · rcases List.mem_cons.mp h1 with h2 | h2
          · subst h2
            decide
          · simp at h2)
    rw [h]
    decide
  · exact (generateKeepChanges_frame
      (fun n d t => toString n ++ "-" ++ d ++ "-" ++ t ++ ".ts")
      [] [("1-easy-a.ts", "hEdited")]
      [⟨1, some "easy", some "a", "regen"⟩, ⟨2, none, some "b", "code2"⟩]
      [("playground/easy/1-easy-a.ts", "edited by hand"),
        ("playground/easy/9-easy-gone.ts", "stale")]).2
      "playground/easy/9-easy-gone.ts" "stale" (by decide)

/-! ## `readme.ts`: marker-delimited region substitution (`insertInfoReadme`)

`insertInfoReadme` first ensures both marker pairs exist:

* if `/<!--info-header-start-->[\s\S]*<!--info-header-end-->/` does not
  match, `<!--info-header-start--><!--info-header-end-->\n\n` is prepended;
* if (after that) the footer regex does not match, the empty footer pair is
  appended after `\n\n`;

and then replaces the header match and afterwards the footer match with the
marker pair wrapping freshly generated content.  JS regex semantics for
`/S[\s\S]*E/` on literal markers: the match starts at the first occurrence
of `S` that is followed (at or after its end) by an occurrence of `E`, and
the greedy `[\s\S]*` extends the match to the *last* occurrence of `E`; the
whole text is unchanged when there is no match.  Since no later occurrence
of `S` can see an `E` the first one cannot, the match exists iff an `E`
occurrence starts at or after the end of the first `S` occurrence.  Text is
embedded as `List Char`; `occurs pat t` is "`pat` occurs as a contiguous
substring", `splitFirst`/`splitLast` split around the first/last
occurrence.  (`$`-escape sequences of `String.replace` replacements play no
role: the generated fragments contain none.) -/

/-- `pat` occurs as a contiguous substring of the text. -/
def occurs (pat : List Char) : List Char → Bool
  | [] => pat.isEmpty
  | c :: cs => pat.isPrefixOf (c :: cs) || occurs pat cs

/-- Split the text around the first occurrence of `pat`:
`some (pre, post)` with `text = pre ++ pat ++ post`, `pre` minimal. -/
def splitFirst (pat : List Char) : List Char → Option (List Char × List Char)
  | [] => if pat.isEmpty then some ([], []) else none
  | c :: cs =>
    if pat.isPrefixOf (c :: cs) then some ([], (c :: cs).drop pat.length)
    else
      match splitFirst pat cs with
      | some (a, b) => some (c :: a, b)
      | none => none

/-- Split the text around the last occurrence of `pat`:
`some (pre, post)` with `text = pre ++ pat ++ post`, `pre` maximal. -/
def splitLast (pat : List Char) : List Char → Option (List Char × List Char)
  | [] => if pat.isEmpty then some ([], []) else none
  | c :: cs =>
    match splitLast pat cs with
    | some (a, b) => some (c :: a, b)
    | none =>
      if pat.isPrefixOf (c :: cs) then some ([], (c :: cs).drop pat.length)
      else none

/-- The four marker tokens of `insertInfoReadme`. -/
def headerStart : List Char := "<!--info-header-start-->".data

def headerEnd : List Char := "<!--info-header-end-->".data

def footerStart : List Char := "<!--info-footer-start-->".data

def footerEnd : List Char := "<!--info-footer-end-->".data

/-- `text.match(/S[\s\S]*E/)` as a boolean: an `S` occurrence followed by
an `E` occurrence starting at or after its end. -/
def hasRegion (s e text : List Char) : Bool :=
  match splitFirst s text with
  | some (_, rest) => occurs e rest
  | none => false

/-- `text.replace(/S[\s\S]*E/, S + repl + E)`: replace from the first
occurrence of `S` through the last occurrence of `E` after it (leftmost
match, greedy `[\s\S]*`); unchanged when the regex does not match. -/
def replaceRegion (s e repl text : List Char) : List Char :=
  match splitFirst s text with
  | none => text
  | some (pre, rest) =>
    match splitLast e rest with
    | none => text
    | some (_, post) => pre ++ s ++ repl ++ e ++ post

/-- The `\n\n` separator used by the marker insertions. -/
def nl2 : List Char := ['\n', '\n']

/-- Header-pair insertion of `insertInfoReadme`: prepend an empty header
pair when the header regex does not match. -/
def insertHeaderMarkers (text : List Char) : List Char :=
  if hasRegion headerStart headerEnd text then text
  else headerStart ++ headerEnd ++ nl2 ++ text

/-- Footer-pair insertion of `insertInfoReadme`: append an empty footer
pair when the footer regex does not match. -/
def insertFooterMarkers (text : List Char) : List Char :=
  if hasRegion footerStart footerEnd text then text
  else text ++ nl2 ++ footerStart ++ footerEnd

/-- Lines 105–108 of `insertInfoReadme`: the header check runs on the
original text, the footer check on the possibly already extended text. -/
def insertMarkers (text : List Char) : List Char :=
  insertFooterMarkers (insertHeaderMarkers text)

/-- The complete region substitution of `insertInfoReadme` on a document,
with generated header content `h` and footer content `f`: marker insertion,
then the chained header and footer `replace` calls. -/
def applyRegions (text h f : List Char) : List Char :=
  replaceRegion footerStart footerEnd f
    (replaceRegion headerStart headerEnd h
      (insertMarkers text))

/-- C5 counterexample: a document whose footer marker pair sits *inside*
the header region.  The footer pair exists before the replacements run, so
nothing is inserted; the header replacement then swallows the footer pair,
the footer replacement finds no match, and the result has no footer region
at all.  The second application therefore appends a fresh footer pair:
applying the operation twice differs from applying it once. -/
theorem applyRegions_not_idempotent :
    applyRegions
      (applyRegions
        ("A<!--info-header-start--><!--info-footer-start-->" ++
          "<!--info-footer-end--><!--info-header-end-->B").data
        "H".data "F".data)
      "H".data "F".data ≠
      applyRegions
        ("A<!--info-header-start--><!--info-footer-start-->" ++
          "<!--info-footer-end--><!--info-header-end-->B").data
        "H".data "F".data := by
  decide

/-! ### Occurrence and splitting lemmas

The markers are literal tokens with no nontrivial self-overlap (no proper
nonempty border), captured by `noOverlapB`; this is what makes occurrences
of a marker in a concatenation decompose cleanly. -/

/-- `p` has no nontrivial self-overlap: no proper shifted copy of `p`
matches `p` itself. -/
def noOverlapB (p : List Char) : Bool :=
  (List.range p.length).all (fun k => k == 0 || !((p.drop k).isPrefixOf p))

theorem noOverlapB_spec {p : List Char} (h : noOverlapB p = true) :
    ∀ k, 0 < k → k < p.length → ¬ (p.drop k).isPrefixOf p = true := by
  intro k hk hklen hpre
  have hall := (List.all_eq_true.mp h) k (List.mem_range.mpr hklen)
  have hk0 : (k == 0) = false := by
    simp only [beq_eq_false_iff_ne, ne_eq]
    omega
  rw [hk0, hpre] at hall
  simp at hall

theorem isPrefixOf_self_append (p b : List Char) : p.isPrefixOf (p ++ b) = true :=
  List.isPrefixOf_iff_prefix.mpr (List.prefix_append p b)

theorem occurs_nil_pat : ∀ t, occurs ([] : List Char) t = true := by
  intro t
  cases t <;> rfl

theorem occurs_middle (pat : List Char) :
    ∀ (a b : List Char), occurs pat (a ++ (pat ++ b)) = true := by
  intro a
  induction a with
  | nil =>
    intro b
    rw [List.nil_append]
    cases pat with
    | nil => exact occurs_nil_pat _
    | cons c ps =>
      rw [List.cons_append]
      simp only [occurs]
      rw [← List.cons_append, isPrefixOf_self_append]
      rfl
  | cons c a' ih =>
    intro b
    rw [List.cons_append]
    simp only [occurs]
    rw [ih b]
    simp

/-- A `p`-prefix of `p.drop k ++ b` forces a self-overlap of `p`. -/
theorem prefix_drop_append {p : List Char} {k : Nat} {b : List Char}
    (hklen : k < p.length) (h : p <+: (p.drop k ++ b)) : (p.drop k) <+: p := by
  have h1 : p = (p.drop k ++ b).take p.length := List.prefix_iff_eq_take.mp h
  have h2 : (p.drop k ++ b).take (p.length - k) = p.take (p.length - k) := by
    have hmin : (p.length - k) ⊓ p.length = p.length - k :=
      min_eq_left (by omega)
    calc (p.drop k ++ b).take (p.length - k)
        = ((p.drop k ++ b).take p.length).take (p.length - k) := by
          rw [List.take_take, hmin]
      _ = p.take (p.length - k) := by rw [← h1]
  have h3 : (p.drop k ++ b).take (p.length - k) = p.drop k := by
    have hlen : (p.drop k).length = p.length - k := List.length_drop _ _
    rw [← hlen, List.take_left]
  rw [h3] at h2
  rw [h2]
  exact List.take_prefix _ p

/-- A non-overlapping `p` that does not occur in the nonempty `a` is not a
prefix of `a ++ p ++ b` (the copy of `p` cannot start strictly inside `a`). -/
theorem not_isPrefixOf_append {p : List Char} (hno : noOverlapB p = true)
    {a : List Char} (ha : occurs p a = false) (hane : a ≠ []) (b : List Char) :
    p.isPrefixOf (a ++ (p ++ b)) = false := by
  rw [Bool.eq_false_iff]
  intro hpreB
  have hpre : p <+: (a ++ (p ++ b)) := List.isPrefixOf_iff_prefix.mp hpreB
  have h1 : p = (a ++ (p ++ b)).take p.length := List.prefix_iff_eq_take.mp hpre
  rcases le_or_lt p.length a.length with hle | hlt
  · rw [List.take_append_of_le_length hle] at h1
    have h2 : p <+: a := by
      rw [h1]
      exact List.take_prefix _ a
    cases a with
    | nil => exact hane rfl
    | cons c cs =>
      have h3 : p.isPrefixOf (c :: cs) = true := List.isPrefixOf_iff_prefix.mpr h2
      have h4 : occurs p (c :: cs) = true := by
        simp only [occurs, h3]
        rfl
      rw [h4] at ha
      simp at ha
  · have hk : 0 < a.length := List.length_pos.mpr hane
    have h2 : p.take a.length = a := by
      have hmin : a.length ⊓ p.length = a.length := min_eq_left (le_of_lt hlt)
      calc p.take a.length
          = ((a ++ (p ++ b)).take p.length).take a.length := by rw [← h1]
        _ = (a ++ (p ++ b)).take a.length := by rw [List.take_take, hmin]
        _ = a := List.take_left a (p ++ b)
    have hp2 : p = a ++ p.drop a.length := by
      conv_lhs => rw [← List.take_append_drop a.length p]
      rw [h2]
    have h3 : (a ++ p.drop a.length) <+: (a ++ (p ++ b)) := by
      rw [← hp2]
      exact hpre
    have h4 : p.drop a.length <+: (p ++ b) := (List.prefix_append_right_inj a).mp h3
    have h5 : p.drop a.length = p.take (p.length - a.length) := by
      have hlen : (p.drop a.length).length = p.length - a.length :=
        List.length_drop _ _
      have h6 := List.prefix_iff_eq_take.mp h4
      rw [hlen, List.take_append_of_le_length (by omega)] at h6
      exact h6
    have h7 : (p.drop a.length).isPrefixOf p = true := by
      rw [List.isPrefixOf_iff_prefix, h5]
      exact List.take_prefix _ p
    exact noOverlapB_spec hno a.length hk hlt h7

/-- A non-overlapping `p` does not occur in a proper suffix of `p` followed
by `p`-free text. -/
theorem occurs_drop_append {p b : List Char} (hno : noOverlapB p = true)
    (hb : occurs p b = false) :
    ∀ j k, 0 < k → p.length - k ≤ j → occurs p (p.drop k ++ b) = false := by
  intro j
  induction j with
  | zero =>
    intro k _ hjk
    rw [List.drop_eq_nil_of_le (by omega), List.nil_append]
    exact hb
  | succ j ih =>
    intro k hk hjk
    by_cases hklt : k < p.length
    · rw [List.drop_eq_getElem_cons hklt, List.cons_append]
      simp only [occurs]
      have h1 : occurs p (p.drop (k + 1) ++ b) = false :=
        ih (k + 1) (by omega) (by omega)
      have h2 : p.isPrefixOf (p[k] :: (p.drop (k + 1) ++ b)) = false := by
        rw [← List.cons_append, ← List.drop_eq_getElem_cons hklt]
        rw [Bool.eq_false_iff]
        intro hcontra
        have hpre : p <+: (p.drop k ++ b) := List.isPrefixOf_iff_prefix.mp hcontra
        have h3 : (p.drop k).isPrefixOf p = true :=
          List.isPrefixOf_iff_prefix.mpr (prefix_drop_append hklt hpre)
        exact noOverlapB_spec hno k hk hklt h3
      rw [h1, h2]
      rfl
    · rw [List.drop_eq_nil_of_le (by omega), List.nil_append]
      exact hb

theorem splitLast_eq_none {p : List Char} :
    ∀ {t}, occurs p t = false → splitLast p t = none := by
  intro t
  induction t with
  | nil =>
    intro h
    simp only [occurs] at h
    simp [splitLast, h]
  | cons c cs ih =>
    intro h
    simp only [occurs] at h
    obtain ⟨h1, h2⟩ := Bool.or_eq_false_iff.mp h
    simp [splitLast, ih h2, h1]

/-- First-occurrence splitting at an explicit decomposition: when `p` does
not occur in `a` and cannot self-overlap, the first occurrence of `p` in
`a ++ p ++ b` is the explicit one. -/
theorem splitFirst_prepend {p : List Char} (hp : p ≠ []) (hno : noOverlapB p = true)
    (b : List Char) : ∀ {a}, occurs p a = false →
      splitFirst p (a ++ (p ++ b)) = some (a, b) := by
  intro a
  induction a with
  | nil =>
    intro _
    rw [List.nil_append]
    obtain ⟨c, ps, rfl⟩ : ∃ c ps, p = c :: ps := by
      cases p with
      | nil => exact absurd rfl hp
      | cons c ps => exact ⟨c, ps, rfl⟩
    rw [List.cons_append]
    simp only [splitFirst]
    rw [← List.cons_append, isPrefixOf_self_append, if_pos rfl, List.drop_left]
  | cons c a' ih =>
    intro ha
    obtain ⟨h1, h2⟩ := Bool.or_eq_false_iff.mp (by simpa only [occurs] using ha)
    rw [List.cons_append]
    simp only [splitFirst]
    have hnp : p.isPrefixOf (c :: (a' ++ (p ++ b))) = false := by
      rw [← List.cons_append]
      exact not_isPrefixOf_append hno ha (by simp) b
    rw [hnp, if_neg (by decide), ih h2]

/-- Last-occurrence splitting at an explicit decomposition: when `p` does
not occur in `b` and cannot self-overlap, the last occurrence of `p` in
`a ++ p ++ b` is the explicit one. -/
theorem splitLast_append {p : List Char} (hp : p ≠ []) (hno : noOverlapB p = true)
    {b : List Char} (hb : occurs p b = false) :
    ∀ a, splitLast p (a ++ (p ++ b)) = some (a, b) := by
  intro a
  induction a with
  | nil =>
    rw [List.nil_append]
    obtain ⟨c, ps, rfl⟩ : ∃ c ps, p = c :: ps := by
      cases p with
      | nil => exact absurd rfl hp
      | cons c ps => exact ⟨c, ps, rfl⟩
    rw [List.cons_append]
    simp only [splitLast]
    have h0 : splitLast (c :: ps) (ps ++ b) = none := by
      apply splitLast_eq_none
      have hps : ps = (c :: ps).drop 1 := rfl
      rw [hps]
      exact occurs_drop_append hno hb (c :: ps).length 1 (by omega) (by omega)
    rw [h0]
    rw [← List.cons_append, isPrefixOf_self_append, if_pos rfl, List.drop_left]
  | cons c a' ih =>
    rw [List.cons_append]
    simp only [splitLast]
    rw [ih]

/-- A region test succeeds on a well-decomposed document. -/
theorem hasRegion_structured {s : List Char} (hs : s ≠ [])
    (hnos : noOverlapB s = true) {a : List Char} (ha : occurs s a = false)
    (e x y : List Char) :
    hasRegion s e (a ++ (s ++ (x ++ (e ++ y)))) = true := by
  unfold hasRegion
  rw [splitFirst_prepend hs hnos (x ++ (e ++ y)) ha]
  exact occurs_middle e x y

/-- A region replacement on a well-decomposed document substitutes exactly
the enclosed segment. -/
theorem replaceRegion_structured {s e : List Char} (hs : s ≠ []) (he : e ≠ [])
    (hnos : noOverlapB s = true) (hnoe : noOverlapB e = true)
    {a x y : List Char} (ha : occurs s a = false) (hy : occurs e y = false)
    (r : List Char) :
    replaceRegion s e r (a ++ (s ++ (x ++ (e ++ y)))) =
      a ++ (s ++ (r ++ (e ++ y))) := by
  unfold replaceRegion
  simp only [splitFirst_prepend hs hnos (x ++ (e ++ y)) ha,
    splitLast_append he hnoe hy x]
  simp [List.append_assoc]

/-- C5 amended: the region substitution is idempotent on every document
whose marker occurrences are well-formed — after the insertion phase the
document decomposes as
`P ++ headerStart ++ X ++ headerEnd ++ M ++ footerStart ++ Y ++ footerEnd ++ Q`
where the header-start marker does not occur in `P`, the header-end marker
does not occur past the header region (with the original `Y` or the
generated `f` in footer position), the footer-start marker does not occur
before the footer region (with the original `X` or the generated `h` in
header position), and the footer-end marker does not occur in `Q`.  This
covers marker-free documents (the insertion case) and previously generated
ones; for documents with nested or interleaved marker pairs idempotence
fails (see the counterexample). -/
theorem applyRegions_idem_of_wellFormed (doc h f P X M Y Q : List Char)
    (hdecomp : insertMarkers doc =
      P ++ (headerStart ++ (X ++ (headerEnd ++
        (M ++ (footerStart ++ (Y ++ (footerEnd ++ Q))))))))
    (hP : occurs headerStart P = false)
    (hY : occurs headerEnd
      (M ++ (footerStart ++ (Y ++ (footerEnd ++ Q)))) = false)
    (hF : occurs headerEnd
      (M ++ (footerStart ++ (f ++ (footerEnd ++ Q)))) = false)
    (hH : occurs footerStart
      (P ++ (headerStart ++ (h ++ (headerEnd ++ M)))) = false)
    (hQ : occurs footerEnd Q = false) :
    applyRegions (applyRegions doc h f) h f = applyRegions doc h f := by
  have hsne : headerStart ≠ [] := by decide
  have hene : headerEnd ≠ [] := by decide
  have fsne : footerStart ≠ [] := by decide
  have fene : footerEnd ≠ [] := by decide
  have hnos : noOverlapB headerStart = true := by decide
  have hnoe : noOverlapB headerEnd = true := by decide
  have fnos : noOverlapB footerStart = true := by decide
  have fnoe : noOverlapB footerEnd = true := by decide
  have e1 : replaceRegion headerStart headerEnd h (insertMarkers doc) =
      P ++ (headerStart ++ (h ++ (headerEnd ++
        (M ++ (footerStart ++ (Y ++ (footerEnd ++ Q))))))) := by
    rw [hdecomp]
    exact replaceRegion_structured hsne hene hnos hnoe hP hY h
  have shape1 : P ++ (headerStart ++ (h ++ (headerEnd ++
      (M ++ (footerStart ++ (Y ++ (footerEnd ++ Q))))))) =
      (P ++ (headerStart ++ (h ++ (headerEnd ++ M)))) ++
        (footerStart ++ (Y ++ (footerEnd ++ Q))) := by
    simp [List.append_assoc]
  have e2 : applyRegions doc h f =
      (P ++ (headerStart ++ (h ++ (headerEnd ++ M)))) ++
        (footerStart ++ (f ++ (footerEnd ++ Q))) := by
    unfold applyRegions
    rw [e1, shape1]
    exact replaceRegion_structured fsne fene fnos fnoe hH hQ f
  have shape2 : (P ++ (headerStart ++ (h ++ (headerEnd ++ M)))) ++
      (footerStart ++ (f ++ (footerEnd ++ Q))) =
      P ++ (headerStart ++ (h ++ (headerEnd ++
        (M ++ (footerStart ++ (f ++ (footerEnd ++ Q))))))) := by
    simp [List.append_assoc]
  have hregH : hasRegion headerStart headerEnd (applyRegions doc h f) = true := by
    rw [e2, shape2]
    exact hasRegion_structured hsne hnos hP headerEnd h
      (M ++ (footerStart ++ (f ++ (footerEnd ++ Q))))
  have hregF : hasRegion footerStart footerEnd (applyRegions doc h f) = true := by
    rw [e2]
    exact hasRegion_structured fsne fnos hH footerEnd f Q
  have hins : insertMarkers (applyRegions doc h f) = applyRegions doc h f := by
    unfold insertMarkers insertHeaderMarkers insertFooterMarkers
    rw [hregH, if_pos rfl, hregF, if_pos rfl]
  have e3 : replaceRegion headerStart headerEnd h (applyRegions doc h f) =
      applyRegions doc h f := by
    calc replaceRegion headerStart headerEnd h (applyRegions doc h f)
        = replaceRegion headerStart headerEnd h
            (P ++ (headerStart ++ (h ++ (headerEnd ++
              (M ++ (footerStart ++ (f ++ (footerEnd ++ Q)))))))) := by
          rw [e2, shape2]
      _ = P ++ (headerStart ++ (h ++ (headerEnd ++
            (M ++ (footerStart ++ (f ++ (footerEnd ++ Q))))))) :=
          replaceRegion_structured hsne hene hnos hnoe hP hF h
      _ = applyRegions doc h f := by rw [e2, shape2]
  have e4 : replaceRegion footerStart footerEnd f (applyRegions doc h f) =
      applyRegions doc h f := by
    calc replaceRegion footerStart footerEnd f (applyRegions doc h f)
        = replaceRegion footerStart footerEnd f
            ((P ++ (headerStart ++ (h ++ (headerEnd ++ M)))) ++
              (footerStart ++ (f ++ (footerEnd ++ Q)))) := by
          rw [e2]
      _ = (P ++ (headerStart ++ (h ++ (headerEnd ++ M)))) ++
            (footerStart ++ (f ++ (footerEnd ++ Q))) :=
          replaceRegion_structured fsne fene fnos fnoe hH hQ f
      _ = applyRegions doc h f := by rw [e2]
  show replaceRegion footerStart footerEnd f
    (replaceRegion headerStart headerEnd h
      (insertMarkers (applyRegions doc h f))) = applyRegions doc h f
  rw [hins, e3, e4]

/-- Witness for C5 amended: a marker-free hand-authored document; the
marker pairs are inserted, the substitution fills them, and a second
application reproduces the result byte for byte. -/
theorem applyRegions_idem_of_wellFormed_witness :
    applyRegions (applyRegions "# Hello\nSome prose.\n".data
        "<h1>T</h1>".data "<br>back".data)
      "<h1>T</h1>".data "<br>back".data =
      applyRegions "# Hello\nSome prose.\n".data
        "<h1>T</h1>".data "<br>back".data :=
  applyRegions_idem_of_wellFormed "# Hello\nSome prose.\n".data
    "<h1>T</h1>".data "<br>back".data
    [] [] (nl2 ++ "# Hello\nSome prose.\n".data ++ nl2) [] []
    (by decide) (by decide) (by decide) (by decide) (by decide) (by decide)

end TypeChallenges
